import Mathlib

/-!
Verification of the rollback journal and package backup/removal engine of
convert2rhel (`convert2rhel/backup/__init__.py`), as a shallow embedding.

Modelling conventions:
* A `RestorableChange` instance is modelled by a value carrying an identity
  (`uid`) and a flag `restoreFails` saying whether its `restore()` method
  raises when called (the model covers both `Exception` and `SystemExit`).
  The abstract `enabled` bookkeeping of the Python base class is not needed
  by any claim and is not modelled.
* The Python journal `BackupController._restorables` is a Python list used
  as a stack: `append` pushes at the END and `list.pop()` pops from the END.
  We represent it as a Lean `List Entry` whose HEAD is the Python list's
  END (the top of the stack, i.e. the most recently pushed entry).  Hence
  `push` conses at the head, and traversing the Lean list from head to tail
  walks the journal in reverse push order.
* Side effects are made explicit as traces: each operation returns, besides
  the new journal, the list of `restore()` / `enable()` invocations it made
  (in call order) and flags for the exceptions it raises.
-/

/-- Model of one concrete `RestorableChange` object: an identity plus
whether its `restore()` raises when invoked (covers `Exception` and
`SystemExit`, both caught by `pop_all`). -/
structure RestorableChange where
  uid : Nat
  restoreFails : Bool
deriving DecidableEq

/-- One entry of `BackupController._restorables`: either the `partition`
sentinel object or a tracked `RestorableChange`. -/
inductive Entry where
  | partition : Entry
  | change : RestorableChange → Entry
deriving DecidableEq

/-- A value handed to `BackupController.push`: the `partition` sentinel, a
`RestorableChange` instance, or any other value (not an instance of
`RestorableChange`, rejected with `TypeError`). -/
inductive PushValue where
  | partition : PushValue
  | restorable : RestorableChange → PushValue
  | other : PushValue
deriving DecidableEq

/-- Outcome of `BackupController.push`: the journal afterwards, the
`enable()` calls made (in order), and whether a `TypeError` was raised. -/
structure PushResult where
  journal : List Entry
  enabled : List RestorableChange
  typeError : Bool
deriving DecidableEq

/-- `BackupController.push`.  The sentinel is appended directly; a value
that is not a `RestorableChange` raises `TypeError` before `enable()` is
called and before anything is appended; a `RestorableChange` has `enable()`
called once and is then appended (head = top of stack). -/
def push (journal : List Entry) (v : PushValue) : PushResult :=
  match v with
  | PushValue.partition => ⟨Entry.partition :: journal, [], false⟩
  | PushValue.restorable c => ⟨Entry.change c :: journal, [c], false⟩
  | PushValue.other => ⟨journal, [], true⟩

/-- The journal obtained by a sequence of `push` calls on a fresh
`BackupController` (a failed `push` of a non-restorable leaves the journal
unchanged). -/
def pushJournal (vs : List PushValue) : List Entry :=
  vs.foldl (fun j v => (push j v).journal) []

/-- The journal entry a `PushValue` would append, if any. -/
def entryOf : PushValue → Option Entry
  | PushValue.partition => some Entry.partition
  | PushValue.restorable c => some (Entry.change c)
  | PushValue.other => none

/-- Entries appended by a sequence of pushes, in push order. -/
def entriesOf (vs : List PushValue) : List Entry :=
  vs.filterMap entryOf

/-- Non-marker (real) entries of a journal, from the top of the stack down,
i.e. in reverse push order. -/
def changesOf (j : List Entry) : List RestorableChange :=
  j.filterMap fun e =>
    match e with
    | Entry.partition => none
    | Entry.change c => some c

/-- Outcome of `BackupController.pop`: either a successful return (with the
`restore()` calls made, always exactly the returned object), the
`IndexError("No backups to restore")` on exhaustion, or propagation of an
exception raised by `restore()` (the entry is already off the journal). -/
inductive PopOutcome where
  | ok : List RestorableChange → RestorableChange → PopOutcome
  | emptyErr : PopOutcome
  | restoreRaised : List RestorableChange → RestorableChange → PopOutcome
deriving DecidableEq

/-- `BackupController.pop`: pop the last (top) entry; on an empty journal
raise `IndexError("No backups to restore")`; a popped `partition` sentinel
is discarded and `pop` recurses; otherwise `restore()` is called on the
popped entry before it is returned.  The second component is the journal
after the call (markers popped along the way stay consumed). -/
def pop : List Entry → PopOutcome × List Entry
  | [] => (PopOutcome.emptyErr, [])
  | Entry.partition :: rest => pop rest
  | Entry.change c :: rest =>
      if c.restoreFails then (PopOutcome.restoreRaised [c] c, rest)
      else (PopOutcome.ok [c] c, rest)

/-- `n` consecutive `pop()` calls; an exception (empty journal or a raising
`restore()`) aborts the sequence.  Returns the outcomes in call order and
the final journal. -/
def popN : Nat → List Entry → List PopOutcome × List Entry
  | 0, j => ([], j)
  | Nat.succ n, j =>
      match pop j with
      | (PopOutcome.ok cs v, j2) =>
          let r := popN n j2
          (PopOutcome.ok cs v :: r.1, r.2)
      | (out, j2) => ([out], j2)

/-- State of the `while True` drain loop of `BackupController.pop_all`:
the `restore()` calls made (in order, raising ones included), whether the
loop returned early because `_honor_partitions` was set and a partition was
reached (in which case the Python code returns `[]`), the journal left
behind, and the number of "Error while rolling back" warnings logged
(one per `restore()` that raised). -/
structure LoopOut where
  restored : List RestorableChange
  hitPartition : Bool
  journal : List Entry
  failures : Nat
deriving DecidableEq

/-- The drain loop of `BackupController.pop_all`: pop until the journal is
exhausted; a partition either stops the loop (`honor = true`, journal below
it untouched) or is skipped; each real entry has `restore()` called, any
exception (`Exception` or `SystemExit`) is caught and logged as a warning,
and the entry is appended to the processed list regardless. -/
def popAllLoop (honor : Bool) : List Entry → LoopOut
  | [] => ⟨[], false, [], 0⟩
  | Entry.partition :: rest =>
      if honor then ⟨[], true, rest, 0⟩
      else popAllLoop honor rest
  | Entry.change c :: rest =>
      let o := popAllLoop honor rest
      ⟨c :: o.restored, o.hitPartition, o.journal,
        (if c.restoreFails then 1 else 0) + o.failures⟩

/-- Outcome of `BackupController.pop_all`: whether
`IndexError("No backups to restore")` was raised (journal unchanged in that
case), the returned list, the `restore()` calls made, the journal
afterwards, and the number of restore-failure warnings logged. -/
structure PopAllResult where
  raised : Bool
  returned : List RestorableChange
  restored : List RestorableChange
  journal : List Entry
  failures : Nat
deriving DecidableEq

/-- `BackupController.pop_all(_honor_partitions)`: raises up front when the
journal is empty or holds only partition sentinels (`not self._restorables
or all(r == self.partition ...)`), leaving it unchanged; otherwise drains
via the loop.  When the loop stopped at a partition (`honor = true`) the
Python code returns the literal `[]`, discarding the processed list. -/
def pop_all (honor : Bool) (j : List Entry) : PopAllResult :=
  if j.isEmpty || j.all (fun r => r == Entry.partition) then
    ⟨true, [], [], j, 0⟩
  else
    let o := popAllLoop honor j
    ⟨false, if o.hitPartition then [] else o.restored, o.restored, o.journal, o.failures⟩

/-- `BackupController.pop_to_partition`: `pop_all(_honor_partitions=True)`
with the return value discarded (the Python method returns `None`). -/
def pop_to_partition (j : List Entry) : PopAllResult :=
  pop_all true j

/-!
Package backup / removal engine: `RestorablePackage`,
`ChangedRPMPackagesController`, `remove_pkgs` and
`remove_epoch_from_yum_nevra`.

External collaborators (`download_pkg`, `run_subprocess`, `system_info`,
`get_hardcoded_repofiles_dir`, `BACKUP_DIR`) live outside the file under
verification; they are modelled as an environment record `SysEnv` whose
fields give the host facts, the hardcoded repofiles directory, and the
result of a package download.  The exit status of the
`rpm -e --nodeps <nvra>` subprocess is a parameter `removeOk : String →
Bool` (applied to the nvra the command receives).  Observable side effects
(backups performed, subprocess commands issued, warnings logged) are
returned as explicit event traces in program order.
-/

/-- `RestorablePackage`: a package name and the path of its downloaded
backup artifact (`None` until a backup succeeds). -/
structure RestorablePackage where
  name : String
  path : Option String
deriving DecidableEq

/-- Host facts and external collaborators used by
`RestorablePackage.backup`.  `backupDirIsDir` is `os.path.isdir(BACKUP_DIR)`;
`eus_system`, `id` and `has_internet_access` come from `system_info`;
`hardcodedRepofilesDir` is `get_hardcoded_repofiles_dir()`; `download_pkg`
maps a package name and the `reposdir` argument to the returned artifact
path (or `None` on failure).  The `set_releasever`, `custom_releasever` and
`varsdir` arguments are threaded through to `download_pkg` unchanged by the
source and do not influence any claim, so they are elided. -/
structure SysEnv where
  backupDirIsDir : Bool
  eus_system : Bool
  id : String
  has_internet_access : Bool
  hardcodedRepofilesDir : String
  download_pkg : String → Option String → Option String

/-- Outcome of `RestorablePackage.backup`: the updated object, the
`download_pkg` invocation made (package name and the `reposdir` argument it
received; in the no-internet branch the source omits `reposdir`, whose
default is `None`), and whether the "Can't access BACKUP_DIR" warning was
logged.  The method never raises: on an inaccessible backup directory it
merely warns and returns. -/
structure BackupOut where
  pkg : RestorablePackage
  downloadCall : Option (String × Option String)
  warned : Bool

/-- `RestorablePackage.backup`.  Inside the accessible-backup-dir branch,
the hardcoded repofiles directory replaces the caller's `reposdir` when the
system is an EUS CentOS; then, if the host has no internet access,
`download_pkg` is invoked WITHOUT a `reposdir` argument (so with its
default `None`), else with the (possibly replaced) `reposdir`. -/
def RestorablePackage.backup (env : SysEnv) (reposdir : Option String)
    (self : RestorablePackage) : BackupOut :=
  if env.backupDirIsDir then
    let reposdir2 := if env.eus_system && (env.id == "centos")
      then some env.hardcodedRepofilesDir else reposdir
    if !env.has_internet_access then
      { pkg := { self with path := env.download_pkg self.name none },
        downloadCall := some (self.name, none), warned := false }
    else
      { pkg := { self with path := env.download_pkg self.name reposdir2 },
        downloadCall := some (self.name, reposdir2), warned := false }
  else
    { pkg := self, downloadCall := none, warned := true }

/-- `ChangedRPMPackagesController` state: identifiers of packages installed
this run and the `RestorablePackage` records of removed packages. -/
structure ChangedRPMPackagesController where
  installed_pkgs : List String
  removed_pkgs : List RestorablePackage

/-- `ChangedRPMPackagesController.backup_and_track_removed_pkg`: build a
fresh `RestorablePackage` (path `None`), run its `backup`, then append it
to `removed_pkgs` (the append happens regardless of whether the backup
obtained an artifact). -/
def backup_and_track_removed_pkg (env : SysEnv) (reposdir : Option String)
    (self : ChangedRPMPackagesController) (pkg : String) :
    ChangedRPMPackagesController × BackupOut :=
  let o := RestorablePackage.backup env reposdir { name := pkg, path := none }
  ({ self with removed_pkgs := self.removed_pkgs ++ [o.pkg] }, o)

/-- Observable events of the removal / restore engine, in program order:
a package backup (`backup_and_track_removed_pkg` call), an
`rpm -e --nodeps <nvra>` subprocess, the `remove_orphan_folders()` cleanup,
a "Couldn't find a backup for ..." warning, and an `rpm -i` subprocess with
its full argument list. -/
inductive Event where
  | backupPkg : String → Event
  | removeCmd : String → Event
  | removeOrphanFolders : Event
  | skipWarning : String → Event
  | installCmd : List String → Event
deriving DecidableEq

/-- `remove_epoch_from_yum_nevra`: drop a leading `"<digits>:"`
prefix (the regex `^\d+:(.*)` applied to the string), returning everything
after the colon; any string not of that shape is returned unchanged. -/
def remove_epoch_from_yum_nevra (package_nevra : String) : String :=
  let ds := package_nevra.toList.takeWhile Char.isDigit
  match package_nevra.toList.dropWhile Char.isDigit with
  | ':' :: tail => if ds.isEmpty then package_nevra else String.mk tail
  | _ => package_nevra

/-- The `if backup:` loop of `remove_pkgs`: back up and track every package
in order, threading the controller state; emits one `backupPkg` event per
package. -/
def backupLoop (env : SysEnv) (reposdir : Option String) :
    ChangedRPMPackagesController → List String →
    ChangedRPMPackagesController × List Event
  | st, [] => (st, [])
  | st, pkg :: rest =>
      let r := backup_and_track_removed_pkg env reposdir st pkg
      let r2 := backupLoop env reposdir r.1 rest
      (r2.1, Event.backupPkg pkg :: r2.2)

/-- The removal loop of `remove_pkgs`: for every nevra in order, strip the
yum epoch, run `rpm -e --nodeps <nvra>`, and sort the ORIGINAL nevra into
the removed or failed list by exit status. -/
def removeLoop (removeOk : String → Bool) :
    List String → List Event × List String × List String
  | [] => ([], [], [])
  | nevra :: rest =>
      let nvra := remove_epoch_from_yum_nevra nevra
      let r := removeLoop removeOk rest
      if removeOk nvra then (Event.removeCmd nvra :: r.1, nevra :: r.2.1, r.2.2)
      else (Event.removeCmd nvra :: r.1, r.2.1, nevra :: r.2.2)

/-- Outcome of `remove_pkgs`: the controller state afterwards (mutated only
by the backup phase), the event trace, the Python return value (`none`
models both the early `return None` on an empty input list and a raised
`CriticalError`), and whether `CriticalError` was raised. -/
structure RemovePkgsOut where
  state : ChangedRPMPackagesController
  events : List Event
  returned : Option (List String)
  raisedCritical : Bool

/-- `remove_pkgs(pkgs_to_remove, backup, critical, ...)`: empty input
returns immediately; otherwise the whole backup phase runs before the
first removal; failures are collected and, with `critical`, raise
`CriticalError` (otherwise a warning is logged and the successfully
removed nevras are returned). -/
def remove_pkgs (env : SysEnv) (reposdir : Option String)
    (removeOk : String → Bool) (st : ChangedRPMPackagesController)
    (pkgs_to_remove : List String) (backup critical : Bool) : RemovePkgsOut :=
  if pkgs_to_remove.isEmpty then ⟨st, [], none, false⟩
  else
    let b := if backup then backupLoop env reposdir st pkgs_to_remove else (st, [])
    let r := removeLoop removeOk pkgs_to_remove
    if !r.2.2.isEmpty && critical then ⟨b.1, b.2 ++ r.1, none, true⟩
    else ⟨b.1, b.2 ++ r.1, some r.2.1, false⟩

/-- `ChangedRPMPackagesController._install_local_rpms` (command trace): no
subprocess when there is nothing to install; otherwise one `rpm -i`
invocation (with `--replacepkgs` when `replace` is set) listing every
path.  The post-invocation bookkeeping (tracking installed nvras, warning
or raising on a failed exit status) touches no claim and is elided. -/
def install_local_rpms (replace : Bool) (pkgs_to_install : List String) :
    List Event :=
  if pkgs_to_install.isEmpty then []
  else
    let cmd_param := ["rpm", "-i"] ++ (if replace then ["--replacepkgs"] else [])
    [Event.installCmd (cmd_param ++ pkgs_to_install)]

/-- The collection loop of `_install_removed_pkgs`: walk `removed_pkgs` in
order, warn and skip every record whose `path` is `None`, collect the
backup path of every other record. -/
def installRemovedLoop :
    List RestorablePackage → List String × List Event
  | [] => ([], [])
  | p :: rest =>
      let r := installRemovedLoop rest
      match p.path with
      | none => (r.1, Event.skipWarning p.name :: r.2)
      | some pth => (pth :: r.1, r.2)

/-- `ChangedRPMPackagesController._install_removed_pkgs`: collect paths
(warning on missing backups), then `_install_local_rpms(paths,
replace=True, critical=False)`. -/
def install_removed_pkgs (removed : List RestorablePackage) : List Event :=
  let r := installRemovedLoop removed
  r.2 ++ install_local_rpms true r.1

/-- `ChangedRPMPackagesController.restore_pkgs` (event trace):
`_remove_installed_pkgs` — that is `remove_pkgs(self.installed_pkgs,
backup=False, critical=False)` — then `remove_orphan_folders()`, then
`_install_removed_pkgs`. -/
def restore_pkgs (env : SysEnv) (removeOk : String → Bool)
    (self : ChangedRPMPackagesController) : List Event :=
  (remove_pkgs env none removeOk self self.installed_pkgs false false).events
    ++ [Event.removeOrphanFolders]
    ++ install_removed_pkgs self.removed_pkgs

/-- `RestorableChange` instances pushed by a sequence of push values, in
push order. -/
def restorablesOf (vs : List PushValue) : List RestorableChange :=
  vs.filterMap fun v =>
    match v with
    | PushValue.restorable c => some c
    | _ => none

/-- A host environment whose system is an EUS variant of a non-CentOS
distribution, with internet access and an accessible backup directory
(used to exhibit which repository set `RestorablePackage.backup` hands to
the download). -/
def envEusOracle : SysEnv :=
  { backupDirIsDir := true, eus_system := true, id := "oracle",
    has_internet_access := true, hardcodedRepofilesDir := "hardcoded-repofiles",
    download_pkg := fun _ _ => some "artifact" }

/-- A host environment whose backup directory is inaccessible
(`os.path.isdir(BACKUP_DIR)` is false). -/
def envNoDir : SysEnv :=
  { backupDirIsDir := false, eus_system := false, id := "centos",
    has_internet_access := true, hardcodedRepofilesDir := "hardcoded-repofiles",
    download_pkg := fun _ _ => none }

/-!  Auxiliary lemmas about the journal model. -/

lemma pushJournal_from (vs : List PushValue) (hvs : ∀ v ∈ vs, v ≠ PushValue.other) :
    ∀ j0 : List Entry,
      vs.foldl (fun j v => (push j v).journal) j0 = (entriesOf vs).reverse ++ j0 := by
  induction vs with
  | nil => intro j0; simp [entriesOf]
  | cons v vs ih =>
      intro j0
      have hv : v ≠ PushValue.other := hvs v (List.mem_cons_self v vs)
      have hrest : ∀ w ∈ vs, w ≠ PushValue.other := fun w hw => hvs w (List.mem_cons_of_mem v hw)
      cases v with
      | other => exact absurd rfl hv
      | partition =>
          rw [List.foldl_cons, ih hrest]
          simp [push, entriesOf, entryOf, List.filterMap_cons]
      | restorable c =>
          rw [List.foldl_cons, ih hrest]
          simp [push, entriesOf, entryOf, List.filterMap_cons]

lemma pushJournal_eq (vs : List PushValue) (hvs : ∀ v ∈ vs, v ≠ PushValue.other) :
    pushJournal vs = (entriesOf vs).reverse := by
  have h := pushJournal_from vs hvs []
  simpa [pushJournal] using h

lemma changesOf_entriesOf (vs : List PushValue) :
    changesOf (entriesOf vs) = restorablesOf vs := by
  induction vs with
  | nil => rfl
  | cons v vs ih =>
      cases v <;> simp [entriesOf, restorablesOf, changesOf, entryOf, List.filterMap_cons] at * <;>
        simpa [entriesOf, restorablesOf, changesOf] using ih

lemma changesOf_reverse (j : List Entry) :
    changesOf j.reverse = (changesOf j).reverse := by
  simp [changesOf, List.filterMap_reverse]

lemma changesOf_map_change (l : List RestorableChange) :
    changesOf (l.map Entry.change) = l := by
  induction l with
  | nil => rfl
  | cons c l ih => simp [changesOf, List.filterMap_cons] at *; exact ih

lemma changesOf_append (a b : List Entry) :
    changesOf (a ++ b) = changesOf a ++ changesOf b := by
  simp [changesOf, List.filterMap_append]

/-- The up-front emptiness check of `pop_all` is exactly "the journal has
no real entries". -/
lemma pop_all_check (j : List Entry) :
    (j.isEmpty || j.all fun r => r == Entry.partition) = (changesOf j).isEmpty := by
  induction j with
  | nil => rfl
  | cons e rest ih =>
      cases e with
      | partition =>
          have h2 : changesOf (Entry.partition :: rest) = changesOf rest := by
            simp [changesOf]
          simp only [List.isEmpty_cons, Bool.false_or, List.all_cons, beq_self_eq_true,
            Bool.true_and, h2]
          cases rest with
          | nil => rfl
          | cons f rest2 => simpa using ih
      | change c => simp [changesOf]

/-- With `_honor_partitions` false, the drain loop restores every real
entry in journal (= reverse push) order, empties the journal, never stops
at a partition, and logs one warning per raising `restore()`. -/
lemma popAllLoop_false (j : List Entry) :
    popAllLoop false j =
      ⟨changesOf j, false, [], (changesOf j).countP fun c => c.restoreFails⟩ := by
  induction j with
  | nil => rfl
  | cons e rest ih =>
      cases e with
      | partition => simpa [popAllLoop, changesOf] using ih
      | change c =>
          simp only [popAllLoop, ih, changesOf, List.filterMap_cons, LoopOut.mk.injEq,
            List.countP_cons]
          cases h : c.restoreFails <;> simp [changesOf, h, Nat.add_comm]

/-- With `_honor_partitions` true, the drain loop on a journal whose top
segment is all real entries followed by a partition restores exactly that
segment, stops at the partition, and leaves everything below untouched. -/
lemma popAllLoop_honor (a : List RestorableChange) (rest : List Entry) :
    popAllLoop true (a.map Entry.change ++ Entry.partition :: rest) =
      ⟨a, true, rest, a.countP fun c => c.restoreFails⟩ := by
  induction a with
  | nil => simp [popAllLoop]
  | cons c a ih =>
      simp only [List.map_cons, List.cons_append, popAllLoop, LoopOut.mk.injEq,
        List.countP_cons]
      cases h : c.restoreFails <;> simp [ih, h, Nat.add_comm]

/-- `pop` on a journal of partition sentinels only: all sentinels are
consumed and the empty-journal `IndexError` surfaces. -/
lemma pop_all_partitions (j : List Entry) (hj : ∀ e ∈ j, e = Entry.partition) :
    pop j = (PopOutcome.emptyErr, []) := by
  induction j with
  | nil => rfl
  | cons e rest ih =>
      have he : e = Entry.partition := hj e (List.mem_cons_self e rest)
      subst he
      have := ih fun f hf => hj f (List.mem_cons_of_mem _ hf)
      simpa [pop] using this

/-- `n` successful pops on a marker-free journal of `n` entries whose
restores all succeed, return the entries in journal order, each with
`restore()` called on exactly the returned object. -/
lemma popN_map_change (qs : List RestorableChange)
    (hq : ∀ c ∈ qs, c.restoreFails = false) :
    popN qs.length (qs.map Entry.change) =
      (qs.map fun c => PopOutcome.ok [c] c, []) := by
  induction qs with
  | nil => rfl
  | cons c qs ih =>
      have hc : c.restoreFails = false := hq c (List.mem_cons_self c qs)
      have hrest : ∀ d ∈ qs, d.restoreFails = false :=
        fun d hd => hq d (List.mem_cons_of_mem _ hd)
      simp [popN, pop, hc, ih hrest]

/-- On any journal with at least one real entry, `pop_all(False)` does not
raise, restores and returns exactly the real entries in journal (= reverse
push) order, empties the journal, and logs one warning per raising
`restore()`. -/
lemma pop_all_false_eq (j : List Entry) (hne : changesOf j ≠ []) :
    pop_all false j =
      ⟨false, changesOf j, changesOf j, [],
        (changesOf j).countP fun c => c.restoreFails⟩ := by
  have hb : (changesOf j).isEmpty = false := by
    cases hc : changesOf j with
    | nil => exact absurd hc hne
    | cons x xs => rfl
  unfold pop_all
  rw [pop_all_check, hb]
  simp [popAllLoop_false]

lemma entriesOf_map_restorable (ps : List RestorableChange) :
    entriesOf (ps.map PushValue.restorable) = ps.map Entry.change := by
  induction ps with
  | nil => rfl
  | cons c ps ih => simp [entriesOf, entryOf, List.filterMap_cons] at *; exact ih

/-!  Auxiliary lemmas about the package removal / restore engine. -/

lemma backupLoop_events (env : SysEnv) (reposdir : Option String) :
    ∀ (pkgs : List String) (st : ChangedRPMPackagesController),
      (backupLoop env reposdir st pkgs).2 = pkgs.map Event.backupPkg := by
  intro pkgs
  induction pkgs with
  | nil => intro st; rfl
  | cons p rest ih => intro st; simp [backupLoop, ih]

lemma removeLoop_eq (removeOk : String → Bool) (pkgs : List String) :
    removeLoop removeOk pkgs =
      (pkgs.map fun n => Event.removeCmd (remove_epoch_from_yum_nevra n),
       pkgs.filter fun n => removeOk (remove_epoch_from_yum_nevra n),
       pkgs.filter fun n => !removeOk (remove_epoch_from_yum_nevra n)) := by
  induction pkgs with
  | nil => rfl
  | cons n rest ih =>
      simp only [removeLoop, ih]
      cases h : removeOk (remove_epoch_from_yum_nevra n) <;>
        simp [List.filter_cons, h]

lemma installRemovedLoop_eq (l : List RestorablePackage) :
    installRemovedLoop l =
      (l.filterMap fun p => p.path,
       (l.filter fun p => p.path.isNone).map fun p => Event.skipWarning p.name) := by
  induction l with
  | nil => rfl
  | cons p rest ih =>
      cases h : p.path <;>
        simp [installRemovedLoop, ih, List.filterMap_cons, List.filter_cons, h]

lemma takeWhile_digits (d r : List Char) (hd : ∀ c ∈ d, c.isDigit = true) :
    (d ++ ':' :: r).takeWhile Char.isDigit = d ∧
      (d ++ ':' :: r).dropWhile Char.isDigit = ':' :: r := by
  induction d with
  | nil =>
      have hcolon : (':').isDigit = false := by decide
      constructor <;> simp [List.takeWhile_cons, List.dropWhile_cons, hcolon]
  | cons c d ih =>
      have hc : c.isDigit = true := hd c (List.mem_cons_self c d)
      have hrest := ih fun x hx => hd x (List.mem_cons_of_mem _ hx)
      simp [List.takeWhile_cons, List.dropWhile_cons, hc, hrest.1, hrest.2]

/-- A NEVRA string of the yum shape `"<digits>:<rest>"` is stripped to
`<rest>`. -/
lemma remove_epoch_strip (d r : List Char) (hne : d ≠ [])
    (hd : ∀ c ∈ d, c.isDigit = true) :
    remove_epoch_from_yum_nevra (String.mk (d ++ ':' :: r)) = String.mk r := by
  have htl : (String.mk (d ++ ':' :: r)).toList = d ++ ':' :: r := rfl
  have h := takeWhile_digits d r hd
  have hde : d.isEmpty = false := by
    cases d with
    | nil => exact absurd rfl hne
    | cons x xs => rfl
  unfold remove_epoch_from_yum_nevra
  rw [htl, h.1, h.2]
  simp [hde]

/-- A string not of the yum shape `"<digits>:<rest>"` (nonempty all-digit
prefix immediately followed by a colon) is returned unchanged. -/
lemma remove_epoch_id (s : String)
    (h : ¬ ∃ d r, s.toList = d ++ ':' :: r ∧ d ≠ [] ∧ ∀ c ∈ d, c.isDigit = true) :
    remove_epoch_from_yum_nevra s = s := by
  unfold remove_epoch_from_yum_nevra
  split
  case _ tail heq =>
    have hde : (s.toList.takeWhile Char.isDigit).isEmpty = true := by
      by_contra hcon
      apply h
      refine ⟨s.toList.takeWhile Char.isDigit, tail, ?_, ?_, ?_⟩
      · conv_lhs => rw [← List.takeWhile_append_dropWhile Char.isDigit s.toList]
        rw [heq]
      · intro hnil
        rw [hnil] at hcon
        exact hcon rfl
      · intro c hc
        exact List.mem_takeWhile_imp hc
    show (if (List.takeWhile Char.isDigit s.toList).isEmpty = true then s
      else { data := tail }) = s
    rw [hde]
    simp
  case _ =>
    rfl

/-- With `backup=False` and `critical=False` (the configuration used by
rollback), `remove_pkgs` issues one `rpm -e --nodeps` per package in order
(epoch-stripped), and never raises `CriticalError`. -/
lemma remove_pkgs_no_backup_events (env : SysEnv) (reposdir : Option String)
    (removeOk : String → Bool) (st : ChangedRPMPackagesController)
    (pkgs : List String) :
    (remove_pkgs env reposdir removeOk st pkgs false false).events =
      (pkgs.map fun n => Event.removeCmd (remove_epoch_from_yum_nevra n))
  ∧ (remove_pkgs env reposdir removeOk st pkgs false false).raisedCritical = false := by
  unfold remove_pkgs
  cases pkgs with
  | nil => exact ⟨rfl, rfl⟩
  | cons q qs => simp [removeLoop_eq]

/-!  The claims. -/

/-- Claim C1: on a journal built by any sequence of pushes of
`RestorableChange` objects and `Partition` markers with at least one real
entry, `pop_all(_honor_partitions=False)` raises nothing, calls `restore()`
on each real entry exactly once in exact reverse push order regardless of
marker placement (the `restored` trace is the reversed push sequence),
leaves the internal list empty, and returns exactly those entries in the
order they were restored. -/
theorem claim_C1 (vs : List PushValue)
    (hother : ∀ v ∈ vs, v ≠ PushValue.other)
    (hm : restorablesOf vs ≠ []) :
    pop_all false (pushJournal vs) =
      ⟨false, (restorablesOf vs).reverse, (restorablesOf vs).reverse, [],
        (restorablesOf vs).reverse.countP fun c => c.restoreFails⟩ := by
  have hch : changesOf (pushJournal vs) = (restorablesOf vs).reverse := by
    rw [pushJournal_eq vs hother, changesOf_reverse, changesOf_entriesOf]
  have hne : changesOf (pushJournal vs) ≠ [] := by
    rw [hch]
    intro hcon
    apply hm
    have := congrArg List.reverse hcon
    simpa using this
  rw [pop_all_false_eq _ hne, hch]

/-- Concrete run of claim C1: pushes p1, marker, p2, marker; `pop_all`
restores and returns p2 then p1 and empties the journal. -/
theorem claim_C1_witness :
    pop_all false (pushJournal
        [PushValue.restorable ⟨1, false⟩, PushValue.partition,
         PushValue.restorable ⟨2, false⟩, PushValue.partition]) =
      ⟨false, [⟨2, false⟩, ⟨1, false⟩], [⟨2, false⟩, ⟨1, false⟩], [], 0⟩ :=
  claim_C1
    [PushValue.restorable ⟨1, false⟩, PushValue.partition,
     PushValue.restorable ⟨2, false⟩, PushValue.partition]
    (by decide) (by decide)

/-- Claim C2: on any journal with at least one real entry, `pop_all`
attempts `restore()` on EVERY real entry even when some of the restores
raise (`Exception` or `SystemExit`): the `restored` trace and the returned
list are the full list of real entries (failing ones included, so a
failure on the i-th entry never prevents the entries below it from being
attempted), the failing entries are removed from the journal like every
other (the journal ends empty), no exception escapes (`raised = false`,
each failure is logged as a warning), and the number of warnings equals
exactly the number of entries whose `restore()` raised. -/
theorem claim_C2 (j : List Entry) (hne : changesOf j ≠ []) :
    pop_all false j =
      ⟨false, changesOf j, changesOf j, [],
        (changesOf j).countP fun c => c.restoreFails⟩ :=
  pop_all_false_eq j hne

/-- Concrete run of claim C2: of three entries the middle one's restore
raises; all three are still restored and returned, the journal is emptied,
and exactly one warning is counted. -/
theorem claim_C2_witness :
    pop_all false [Entry.change ⟨3, false⟩, Entry.change ⟨2, true⟩, Entry.change ⟨1, false⟩] =
      ⟨false, [⟨3, false⟩, ⟨2, true⟩, ⟨1, false⟩],
        [⟨3, false⟩, ⟨2, true⟩, ⟨1, false⟩], [], 1⟩ :=
  claim_C2 [Entry.change ⟨3, false⟩, Entry.change ⟨2, true⟩, Entry.change ⟨1, false⟩]
    (by decide)

/-- Claim C3: on a journal with exactly one `Partition` marker and real
entries both above (`a`, top first) and below (`b`, top first) it,
`pop_to_partition()` restores exactly the entries above the marker in
reverse push order, returns nothing (the Python method returns `None`;
internally `pop_all` returns `[]`), and leaves every entry below the
marker untouched in the journal; a subsequent `pop_all()` restores exactly
the remaining entries in reverse push order and empties the journal, so
the two calls together restore every real entry (`a ++ b = changesOf j`)
exactly once, in overall reverse push order, split at the marker. -/
theorem claim_C3 (a b : List RestorableChange) (ha : a ≠ []) (hb : b ≠ []) :
    pop_to_partition (a.map Entry.change ++ Entry.partition :: b.map Entry.change) =
      ⟨false, [], a, b.map Entry.change, a.countP fun c => c.restoreFails⟩
  ∧ pop_all false (b.map Entry.change) =
      ⟨false, b, b, [], b.countP fun c => c.restoreFails⟩
  ∧ changesOf (a.map Entry.change ++ Entry.partition :: b.map Entry.change) = a ++ b := by
  have hchange : changesOf (a.map Entry.change ++ Entry.partition :: b.map Entry.change)
      = a ++ b := by
    rw [changesOf_append, changesOf_map_change]
    have hpb : changesOf (Entry.partition :: b.map Entry.change) = b := by
      rw [show (Entry.partition :: b.map Entry.change)
            = [Entry.partition] ++ b.map Entry.change from rfl,
        changesOf_append, changesOf_map_change]
      rfl
    rw [hpb]
  refine ⟨?_, ?_, hchange⟩
  · have hne : (changesOf (a.map Entry.change ++ Entry.partition :: b.map Entry.change)).isEmpty
        = false := by
      rw [hchange]
      cases a with
      | nil => exact absurd rfl ha
      | cons x xs => rfl
    unfold pop_to_partition pop_all
    rw [pop_all_check, hne]
    simp [popAllLoop_honor]
  · have hne2 : changesOf (b.map Entry.change) ≠ [] := by
      rw [changesOf_map_change]
      exact hb
    rw [pop_all_false_eq _ hne2, changesOf_map_change]

/-- Concrete run of claim C3: journal `[p3, marker, p2, p1]` (top first):
`pop_to_partition` restores only p3 and leaves `[p2, p1]`; `pop_all` then
restores p2, p1. -/
theorem claim_C3_witness :
    pop_to_partition [Entry.change ⟨3, false⟩, Entry.partition,
        Entry.change ⟨2, false⟩, Entry.change ⟨1, false⟩] =
      ⟨false, [], [⟨3, false⟩], [Entry.change ⟨2, false⟩, Entry.change ⟨1, false⟩], 0⟩
  ∧ pop_all false [Entry.change ⟨2, false⟩, Entry.change ⟨1, false⟩] =
      ⟨false, [⟨2, false⟩, ⟨1, false⟩], [⟨2, false⟩, ⟨1, false⟩], [], 0⟩
  ∧ changesOf [Entry.change ⟨3, false⟩, Entry.partition,
        Entry.change ⟨2, false⟩, Entry.change ⟨1, false⟩]
      = [⟨3, false⟩] ++ [⟨2, false⟩, ⟨1, false⟩] :=
  claim_C3 [⟨3, false⟩] [⟨2, false⟩, ⟨1, false⟩] (by decide) (by decide)

/-- Claim C4: after pushing p1..pn (no markers) onto a fresh controller,
n consecutive `pop()` calls return pn, .., p1 in that order, each with
`restore()` called on exactly the returned object before it is returned
(outcome `ok [c] c` records the restore-call trace of that pop); the
journal is left empty.  The restores are assumed to succeed, otherwise
`pop` propagates the exception instead of returning. -/
theorem claim_C4 (ps : List RestorableChange)
    (hok : ∀ c ∈ ps, c.restoreFails = false) :
    popN ps.length (pushJournal (ps.map PushValue.restorable)) =
      (ps.reverse.map fun c => PopOutcome.ok [c] c, []) := by
  have hother : ∀ v ∈ ps.map PushValue.restorable, v ≠ PushValue.other := by
    intro v hv
    rw [List.mem_map] at hv
    obtain ⟨c, _, rfl⟩ := hv
    intro hcon
    cases hcon
  have hj : pushJournal (ps.map PushValue.restorable) = ps.reverse.map Entry.change := by
    rw [pushJournal_eq _ hother, entriesOf_map_restorable, List.map_reverse]
  have hrev : ∀ c ∈ ps.reverse, c.restoreFails = false :=
    fun c hc => hok c (List.mem_reverse.mp hc)
  have h := popN_map_change ps.reverse hrev
  rw [hj, ← List.length_reverse ps]
  exact h

/-- Concrete run of claim C4: pushes p1, p2; the two pops return p2 then
p1, each restored. -/
theorem claim_C4_witness :
    popN 2 (pushJournal [PushValue.restorable ⟨1, false⟩, PushValue.restorable ⟨2, false⟩]) =
      ([PopOutcome.ok [⟨2, false⟩] ⟨2, false⟩, PopOutcome.ok [⟨1, false⟩] ⟨1, false⟩], []) :=
  claim_C4 [⟨1, false⟩, ⟨2, false⟩] (by decide)

/-- Claim C5: on a journal that is empty or holds only `Partition`
markers, `pop_all` raises the empty-journal `IndexError` ("No backups to
restore") up front with the journal left unchanged and no `restore()`
called, while `pop()` consumes the markers one by one (recursing) until
the underlying empty pop raises, so after the failing `pop()` the markers
are gone from the journal; it too restores nothing. -/
theorem claim_C5 (honor : Bool) (j : List Entry)
    (hj : ∀ e ∈ j, e = Entry.partition) :
    pop_all honor j = ⟨true, [], [], j, 0⟩
  ∧ pop j = (PopOutcome.emptyErr, []) := by
  constructor
  · have hc : (j.all fun r => r == Entry.partition) = true := by
      rw [List.all_eq_true]
      intro x hx
      rw [beq_iff_eq]
      exact hj x hx
    unfold pop_all
    rw [hc, Bool.or_true]
    simp
  · exact pop_all_partitions j hj

/-- Concrete run of claim C5: a journal of two markers; `pop_all` raises
and leaves both markers, a failing `pop()` consumes both. -/
theorem claim_C5_witness :
    pop_all false [Entry.partition, Entry.partition] =
      ⟨true, [], [], [Entry.partition, Entry.partition], 0⟩
  ∧ pop [Entry.partition, Entry.partition] = (PopOutcome.emptyErr, []) :=
  claim_C5 false [Entry.partition, Entry.partition] (by decide)

/-- Claim C6: `push` of a value that is neither the `Partition` sentinel
nor a `RestorableChange` raises `TypeError` with no `enable()` call and
the journal unchanged; `push` of the sentinel bypasses the capability
check and `enable()` and appends the marker; `push` of a
`RestorableChange` calls its `enable()` exactly once and then appends it;
and any sequence of successful pushes yields the journal holding the
pushed entries in push order (head of the model list = most recent). -/
theorem claim_C6 :
    (∀ j : List Entry, push j PushValue.other = ⟨j, [], true⟩)
  ∧ (∀ j : List Entry, push j PushValue.partition = ⟨Entry.partition :: j, [], false⟩)
  ∧ (∀ (j : List Entry) (c : RestorableChange),
      push j (PushValue.restorable c) = ⟨Entry.change c :: j, [c], false⟩)
  ∧ (∀ vs : List PushValue, (∀ v ∈ vs, v ≠ PushValue.other) →
      pushJournal vs = (entriesOf vs).reverse) :=
  ⟨fun _ => rfl, fun _ => rfl, fun _ _ => rfl, pushJournal_eq⟩

/-- Concrete run of claim C6: pushing p1 then a marker gives the journal
`[marker, p1]` (top first), i.e. entries in push order bottom-up. -/
theorem claim_C6_witness :
    pushJournal [PushValue.restorable ⟨1, false⟩, PushValue.partition] =
      [Entry.partition, Entry.change ⟨1, false⟩] :=
  claim_C6.2.2.2 [PushValue.restorable ⟨1, false⟩, PushValue.partition] (by decide)

/-- Claim C7: with `backup=True`, `remove_pkgs` on a non-empty package
list performs the backup step for every package in list order before
issuing the first removal command: the event trace is all `backupPkg`
events followed by all `removeCmd` events, so no removal subprocess is
interleaved with or precedes any backup. -/
theorem claim_C7 (env : SysEnv) (reposdir : Option String)
    (removeOk : String → Bool) (st : ChangedRPMPackagesController)
    (pkgs : List String) (critical : Bool) (hne : pkgs ≠ []) :
    (remove_pkgs env reposdir removeOk st pkgs true critical).events =
      pkgs.map Event.backupPkg ++
        pkgs.map fun n => Event.removeCmd (remove_epoch_from_yum_nevra n) := by
  have hb : pkgs.isEmpty = false := by
    cases pkgs with
    | nil => exact absurd rfl hne
    | cons q qs => rfl
  unfold remove_pkgs
  rw [hb]
  simp only [Bool.false_eq_true, if_false]
  split <;> simp [backupLoop_events, removeLoop_eq]

/-- Concrete run of claim C7: two packages, the second failing to remove,
under `critical`: both backups precede both removal commands. -/
theorem claim_C7_witness :
    (remove_pkgs envEusOracle none (fun n => n == "a") { installed_pkgs := [], removed_pkgs := [] }
        ["a", "b"] true true).events =
      [Event.backupPkg "a", Event.backupPkg "b",
       Event.removeCmd "a", Event.removeCmd "b"] :=
  claim_C7 envEusOracle none (fun n => n == "a")
    { installed_pkgs := [], removed_pkgs := [] } ["a", "b"] true (by decide)

/-- Claim C8: `remove_pkgs(["7:foo-1.0-1.el7.x86_64"], critical=True)`
with a successful removal returns the original yum-notation string and no
`CriticalError`, while the removal subprocess receives the epoch-stripped
`"foo-1.0-1.el7.x86_64"`; in general
`remove_epoch_from_yum_nevra` strips a leading `"<digits>:"`
prefix, returns any string without such a prefix unchanged, and in
particular leaves a dnf-notation string with an embedded epoch as is. -/
theorem claim_C8 :
    (∀ (env : SysEnv) (reposdir : Option String) (st : ChangedRPMPackagesController),
        (remove_pkgs env reposdir (fun _ => true) st
            ["7:foo-1.0-1.el7.x86_64"] true true).returned
          = some ["7:foo-1.0-1.el7.x86_64"]
      ∧ (remove_pkgs env reposdir (fun _ => true) st
            ["7:foo-1.0-1.el7.x86_64"] true true).events
          = [Event.backupPkg "7:foo-1.0-1.el7.x86_64",
             Event.removeCmd "foo-1.0-1.el7.x86_64"]
      ∧ (remove_pkgs env reposdir (fun _ => true) st
            ["7:foo-1.0-1.el7.x86_64"] true true).raisedCritical = false)
  ∧ (∀ (d r : List Char), d ≠ [] → (∀ c ∈ d, c.isDigit = true) →
      remove_epoch_from_yum_nevra (String.mk (d ++ ':' :: r)) = String.mk r)
  ∧ (∀ s : String,
      (¬ ∃ d r, s.toList = d ++ ':' :: r ∧ d ≠ [] ∧ ∀ c ∈ d, c.isDigit = true) →
      remove_epoch_from_yum_nevra s = s)
  ∧ remove_epoch_from_yum_nevra "oraclelinux-release-8:8.2-1.0.8.el8.x86_64"
      = "oraclelinux-release-8:8.2-1.0.8.el8.x86_64" := by
  refine ⟨?_, fun d r h1 h2 => remove_epoch_strip d r h1 h2, remove_epoch_id, by decide⟩
  intro env reposdir st
  have hstrip : remove_epoch_from_yum_nevra "7:foo-1.0-1.el7.x86_64"
      = "foo-1.0-1.el7.x86_64" := by decide
  refine ⟨?_, ?_, ?_⟩ <;>
    simp [remove_pkgs, backupLoop, backup_and_track_removed_pkg, removeLoop, hstrip]

/-- Concrete run of claim C8's general stripping law: `"12:bar"` loses its
epoch prefix. -/
theorem claim_C8_witness :
    remove_epoch_from_yum_nevra (String.mk (['1', '2'] ++ ':' :: ['b', 'a', 'r']))
      = String.mk ['b', 'a', 'r'] :=
  claim_C8.2.1 ['1', '2'] ['b', 'a', 'r'] (by decide) (by decide)

/-- Claim C9 as stated is FALSE on the code: on a host that IS an EUS
system (but not CentOS) with internet access, `RestorablePackage.backup`
hands the download the CALLER-supplied repository set, not the hardcoded
one (and `"caller-reposdir"` differs from the hardcoded directory). -/
theorem claim_C9_counterexample :
    envEusOracle.eus_system = true
  ∧ (RestorablePackage.backup envEusOracle (some "caller-reposdir")
        { name := "pkg-a", path := none }).downloadCall
      = some ("pkg-a", some "caller-reposdir")
  ∧ some (("pkg-a" : String), (some "caller-reposdir" : Option String))
      ≠ some (("pkg-a" : String), some envEusOracle.hardcodedRepofilesDir) :=
  ⟨rfl, rfl, by decide⟩

/-- Claim C9, amended: when the backup directory is accessible, the
download's repository set is determined as follows — if the host lacks
internet access, `download_pkg` is invoked with NO repository-files
argument at all (the caller-supplied set is ignored but the hardcoded one
is not used either); with internet access, the hardcoded archival
repository set replaces the caller-supplied one exactly when the host is
an EUS system AND its distribution id is "centos"; in every other case the
caller-supplied set is used. -/
theorem claim_C9 (env : SysEnv) (reposdir : Option String)
    (p : RestorablePackage) (hdir : env.backupDirIsDir = true) :
    (env.has_internet_access = false →
      (RestorablePackage.backup env reposdir p).downloadCall = some (p.name, none))
  ∧ (env.has_internet_access = true → env.eus_system = true → env.id = "centos" →
      (RestorablePackage.backup env reposdir p).downloadCall
        = some (p.name, some env.hardcodedRepofilesDir))
  ∧ (env.has_internet_access = true →
      ¬(env.eus_system = true ∧ env.id = "centos") →
      (RestorablePackage.backup env reposdir p).downloadCall
        = some (p.name, reposdir)) := by
  unfold RestorablePackage.backup
  rw [hdir]
  refine ⟨fun hnet => ?_, fun hnet heus hid => ?_, fun hnet hne => ?_⟩
  · simp [hnet]
  · simp [hnet, heus, hid]
  · have hfalse : (env.eus_system && (env.id == "centos")) = false := by
      cases he : env.eus_system
      · rfl
      · cases hi : env.id == "centos"
        · rfl
        · exact absurd ⟨he, by rwa [beq_iff_eq] at hi⟩ hne
    simp [hnet, hfalse]

/-- Concrete run of amended claim C9: on the EUS non-CentOS host with
internet, the caller-supplied repository set reaches the download. -/
theorem claim_C9_witness :
    (RestorablePackage.backup envEusOracle (some "caller-reposdir")
        { name := "pkg-a", path := none }).downloadCall
      = some ("pkg-a", some "caller-reposdir") :=
  (claim_C9 envEusOracle (some "caller-reposdir") { name := "pkg-a", path := none }
      rfl).2.2 rfl (by decide)

/-- Claim C10: backing up a removed package is best-effort — with the
backup directory inaccessible, `RestorablePackage.backup` logs a warning,
makes no download and returns without raising (the model is total), the
package's `path` stays `None`, and `backup_and_track_removed_pkg` still
appends it to `removed_pkgs`; later `restore_pkgs` first force-removes
every tracked installed package (one `rpm -e --nodeps` per package,
continuing past individual failures — the non-critical removal phase never
raises for any exit statuses), then cleans orphan folders, then warns and
skips every removed package whose `path` is `None` while reinstalling all
removed packages with a non-null backup path in one `rpm -i
--replacepkgs` invocation. -/
theorem claim_C10 :
    (∀ (env : SysEnv) (reposdir : Option String)
        (st : ChangedRPMPackagesController) (pkg : String),
        env.backupDirIsDir = false →
        backup_and_track_removed_pkg env reposdir st pkg =
          ({ st with removed_pkgs := st.removed_pkgs ++ [{ name := pkg, path := none }] },
           { pkg := { name := pkg, path := none }, downloadCall := none, warned := true }))
  ∧ (∀ (env : SysEnv) (removeOk : String → Bool) (st : ChangedRPMPackagesController),
        restore_pkgs env removeOk st =
          (st.installed_pkgs.map fun n =>
              Event.removeCmd (remove_epoch_from_yum_nevra n))
            ++ [Event.removeOrphanFolders]
            ++ ((st.removed_pkgs.filter fun p => p.path.isNone).map fun p =>
                  Event.skipWarning p.name)
            ++ (if (st.removed_pkgs.filterMap fun p => p.path) = [] then []
                else [Event.installCmd (["rpm", "-i", "--replacepkgs"]
                        ++ st.removed_pkgs.filterMap fun p => p.path)]))
  ∧ (∀ (env : SysEnv) (removeOk : String → Bool) (st : ChangedRPMPackagesController),
        (remove_pkgs env none removeOk st st.installed_pkgs false false).raisedCritical
          = false) := by
  refine ⟨?_, ?_, ?_⟩
  · intro env reposdir st pkg h
    unfold backup_and_track_removed_pkg RestorablePackage.backup
    rw [h]
    simp
  · intro env removeOk st
    unfold restore_pkgs install_removed_pkgs
    rw [(remove_pkgs_no_backup_events env none removeOk st st.installed_pkgs).1,
      installRemovedLoop_eq]
    unfold install_local_rpms
    by_cases hnil : (st.removed_pkgs.filterMap fun p => p.path) = [] <;>
      simp [hnil, List.isEmpty_iff]
  · intro env removeOk st
    exact (remove_pkgs_no_backup_events env none removeOk st st.installed_pkgs).2

/-- Concrete run of claim C10: with the backup directory inaccessible the
removed package is still tracked, with `path = None`, warned, and no
download performed. -/
theorem claim_C10_witness :
    backup_and_track_removed_pkg envNoDir none
        { installed_pkgs := [], removed_pkgs := [] } "pkg-a" =
      ({ installed_pkgs := [], removed_pkgs := [{ name := "pkg-a", path := none }] },
       { pkg := { name := "pkg-a", path := none }, downloadCall := none, warned := true }) :=
  claim_C10.1 envNoDir none { installed_pkgs := [], removed_pkgs := [] } "pkg-a" rfl
